import Mathlib

/-
Verification of the graph-traversal core of the JSON-Server-Builder script
(build_graph and traverse_graph in script.py), as a shallow embedding.

Node ids and endpoints are strings.  Python dictionaries keyed by strings are
embedded as association lists with Python-dict semantics: inserting an
existing key replaces its value in place (keeping its position, so that
iteration order matches CPython), inserting a fresh key appends at the end.
The traversal's while-loop over the BFS deque is embedded with an explicit
fuel parameter (the source has no cycle protection, so the loop need not
terminate on cyclic graphs); running out of fuel is a distinguished error.
An unguarded dictionary lookup that misses (Python KeyError) is embedded as
the error value "KeyError".  The loop additionally threads two ghost
accumulators used only by specifications: the list of dequeued
(node id, flags) pairs and the list of route-visit events; they influence
no computed route table or flag.
-/

set_option autoImplicit false

namespace JSB

/-- The free-form `properties` mapping of a node, restricted to the keys the
script reads.  `hasAllowedOrigins` records presence of the key
`allowed_origins` (the script only tests `"allowed_origins" in props`);
`logRequests` records truthiness of `props.get("log_requests")`. -/
structure Props where
  type? : Option String
  hasAllowedOrigins : Bool
  logRequests : Bool
  authRequired? : Option Bool
  adminRequired? : Option Bool
  endpoint? : Option String
  method? : Option String
  deriving DecidableEq, Repr

/-- A node's `target` field: a single id or a list of ids. -/
inductive Target where
  | one (t : String)
  | many (ts : List String)
  deriving DecidableEq, Repr

/-- A node record.  `source?` is `none` when the key is absent or null;
`properties?` is `none` when the key is absent. -/
structure Node where
  id : String
  source? : Option String
  target? : Option Target
  name? : Option String
  properties? : Option Props
  deriving DecidableEq, Repr

/-- Association list with Python-dict lookup: first (unique) matching key. -/
def dictLookup {α : Type} : List (String × α) → String → Option α
  | [], _ => none
  | (k, v) :: rest, i => if k = i then some v else dictLookup rest i

/-- Python-dict assignment `d[k] = v`: replace in place, else append. -/
def dictInsert {α : Type} : List (String × α) → String → α → List (String × α)
  | [], k, v => [(k, v)]
  | (k', v') :: rest, k, v =>
    if k' = k then (k, v) :: rest else (k', v') :: dictInsert rest k v

/-- Python `d.values()` in insertion order. -/
def dictValues {α : Type} (d : List (String × α)) : List α :=
  d.map Prod.snd

/-- Python `defaultdict(list)` update `d[k].append(v)`. -/
def dictAppendAt : List (String × List String) → String → String → List (String × List String)
  | [], k, v => [(k, [v])]
  | (k', l) :: rest, k, v =>
    if k' = k then (k, l ++ [v]) :: rest else (k', l) :: dictAppendAt rest k v

/-- Python `children.get(cur_id, [])`. -/
def chGet (ch : List (String × List String)) (i : String) : List String :=
  (dictLookup ch i).getD []

/-- The empty `properties` mapping. -/
def emptyProps : Props :=
  ⟨none, false, false, none, none, none, none⟩

/-- Python `node.get("properties", default empty)`. -/
def propsOf (n : Node) : Props :=
  n.properties?.getD emptyProps

/-- The ids listed by a `target` value. -/
def Target.tids : Target → List String
  | .one t => [t]
  | .many ts => ts

/-- Python truthiness of a `target` value (`if target:`): a scalar id is
truthy unless empty, a list is truthy unless empty. -/
def Target.truthy : Target → Bool
  | .one t => decide (t ≠ "")
  | .many ts => decide (ts ≠ [])

/-- The adjacency contributions of one node (script.py lines 21-27): for a
truthy list target, one entry per element in order; for a truthy scalar
target, one entry; otherwise none. -/
def edgesOf (n : Node) : List String :=
  match n.target? with
  | some t => if t.truthy then t.tids else []
  | none => []

/-- One iteration of the `for node in nodes` loop of `build_graph`. -/
def buildStep (acc : List (String × Node) × List (String × List String)) (node : Node) :
    List (String × Node) × List (String × List String) :=
  (dictInsert acc.1 node.id node,
   (edgesOf node).foldl (fun chd tid => dictAppendAt chd node.id tid) acc.2)

/-- Source `build_graph(nodes)`: the id-indexed node map and the children map. -/
def build_graph (nodes : List Node) :
    List (String × Node) × List (String × List String) :=
  nodes.foldl buildStep ([], [])

/-- Entry-node predicate (script.py line 39):
`node.get("source") is None or node.get("properties", default).get("type") == "entry"`. -/
def isEntry (n : Node) : Bool :=
  n.source?.isNone || decide ((propsOf n).type? = some "entry")

/-- Per-path middleware flags. -/
structure Flags where
  auth : Bool
  admin : Bool
  deriving DecidableEq, Repr

/-- Process-wide flags. -/
structure GFlags where
  cors : Bool
  logging : Bool
  deriving DecidableEq, Repr

/-- A stored route record. -/
structure RouteInfo where
  method : String
  name : String
  auth : Bool
  admin : Bool
  deriving DecidableEq, Repr

/-- A route-visit event: the data a single dequeue of a route node
contributes to the route table (ghost, for specification). -/
structure Visit where
  endpoint : String
  method : String
  name : String
  auth : Bool
  admin : Bool
  deriving DecidableEq, Repr

/-- Lines 60-63: overwrite the inherited flags with the node's explicit
`auth_required` / `admin_required` values when present. -/
def overrideFlags (p : Props) (f : Flags) : Flags :=
  let f1 : Flags := match p.authRequired? with
    | some v => ⟨v, f.admin⟩
    | none => f
  match p.adminRequired? with
  | some v => ⟨f1.auth, v⟩
  | none => f1

/-- Lines 53-56: set the global flags from a visited node's properties. -/
def updateGlobals (p : Props) (g : GFlags) : GFlags :=
  let g1 : GFlags := if p.hasAllowedOrigins then ⟨true, g.logging⟩ else g
  if p.logRequests then ⟨g1.cors, true⟩ else g1

/-- Python `method.lower()` on the ASCII method names the script handles;
written over the character list so that it evaluates by reduction. -/
def strLower (s : String) : String :=
  String.mk (s.data.map Char.toLower)

/-- Lines 75-78: the applied flags of a non-exempt route node — the node's
own explicit values when present, otherwise the (post-override) path flags. -/
def appliedFlags (p : Props) (f : Flags) : Flags :=
  ⟨p.authRequired?.getD f.auth, p.adminRequired?.getD f.admin⟩

/-- The hard-coded public endpoints of line 71. -/
def exemptEndpoints : List String :=
  ["/login", "/signup", "/signout"]

/-- Lines 66-78: the route-visit event of one dequeue, when the node's
properties hold both `endpoint` and `method`; `f` is the path's flags after
the line 60-63 override. -/
def visitOf (node : Node) (f : Flags) : Option Visit :=
  let p := propsOf node
  match p.endpoint?, p.method? with
  | some e, some m =>
    let applied : Flags :=
      if e ∈ exemptEndpoints then ⟨false, false⟩ else appliedFlags p f
    some ⟨e, strLower m, node.name?.getD "Unnamed Route", applied.auth, applied.admin⟩
  | _, _ => none

/-- Lines 81-82: in-place OR-merge of a visit into an existing record. -/
def mergeRecord (r : RouteInfo) (v : Visit) : RouteInfo :=
  ⟨r.method, r.name, r.auth || v.auth, r.admin || v.admin⟩

/-- Line 84: the fresh record stored on a first visit. -/
def initRecord (v : Visit) : RouteInfo :=
  ⟨v.method, v.name, v.auth, v.admin⟩

/-- Lines 79-84: merge one route-visit event into the route table. -/
def applyVisit (routes : List (String × RouteInfo)) (v : Visit) :
    List (String × RouteInfo) :=
  match dictLookup routes v.endpoint with
  | some r => dictInsert routes v.endpoint (mergeRecord r v)
  | none => dictInsert routes v.endpoint (initRecord v)

/-- The `while queue` loop of `traverse_graph` (lines 47-89), with a fuel
bound standing for the absent cycle protection.  The last two arguments are
ghost logs: the dequeued (id, flags) pairs and the route-visit events. -/
def traverseLoop (nm : List (String × Node)) (ch : List (String × List String)) :
    Nat → List (String × Flags) → List (String × RouteInfo) → GFlags →
    List (String × Flags) → List Visit →
    Except String (List (String × RouteInfo) × GFlags × List (String × Flags) × List Visit)
  | 0, _, _, _, _, _ => .error "out of fuel"
  | _ + 1, [], routes, g, dq, vs => .ok (routes, g, dq, vs)
  | fuel + 1, (cur, f) :: rest, routes, g, dq, vs =>
    match dictLookup nm cur with
    | none => .error "KeyError"
    | some node =>
      let p := propsOf node
      let g' := updateGlobals p g
      let f' := overrideFlags p f
      let routes' := match visitOf node f' with
        | some v => applyVisit routes v
        | none => routes
      let enq := (chGet ch cur).map (fun c => (c, f'))
      traverseLoop nm ch fuel (rest ++ enq) routes' g' (dq ++ [(cur, f)])
        (vs ++ (visitOf node f').toList)

/-- Lines 39-45: the initial queue of entry nodes, each with fresh flags. -/
def entryQueue (nm : List (String × Node)) : List (String × Flags) :=
  ((dictValues nm).filter isEntry).map (fun n => (n.id, (⟨false, false⟩ : Flags)))

/-- Source `traverse_graph` with its ghost logs exposed. -/
def traverse_graphT (fuel : Nat) (nm : List (String × Node))
    (ch : List (String × List String)) :
    Except String (List (String × RouteInfo) × GFlags × List (String × Flags) × List Visit) :=
  traverseLoop nm ch fuel (entryQueue nm) [] ⟨false, false⟩ [] []

/-- Source `traverse_graph(node_map, children)`: the route table and global flags. -/
def traverse_graph (fuel : Nat) (nm : List (String × Node))
    (ch : List (String × List String)) :
    Except String (List (String × RouteInfo) × GFlags) :=
  (traverse_graphT fuel nm ch).map (fun x => (x.1, x.2.1))

/-- The full local state of `traverse_graph` seen by its while-loop; used to
express that the loop leaves the node map, the children map and every node
record unchanged. -/
structure PyState where
  node_map : List (String × Node)
  children : List (String × List String)
  routes : List (String × RouteInfo)
  global_flags : GFlags
  queue : List (String × Flags)
  deriving DecidableEq, Repr

/-- The while-loop of `traverse_graph` threading its complete local state
(so mutation of any component would be visible in the result). -/
def traverseLoopS : Nat → PyState → Except String PyState
  | 0, _ => .error "out of fuel"
  | fuel + 1, st =>
    match st.queue with
    | [] => .ok st
    | (cur, f) :: rest =>
      match dictLookup st.node_map cur with
      | none => .error "KeyError"
      | some node =>
        let p := propsOf node
        let g' := updateGlobals p st.global_flags
        let f' := overrideFlags p f
        let routes' := match visitOf node f' with
          | some v => applyVisit st.routes v
          | none => st.routes
        let enq := (chGet st.children cur).map (fun c => (c, f'))
        traverseLoopS fuel ⟨st.node_map, st.children, routes', g', rest ++ enq⟩

/-- Source `traverse_graph` run on the state-threading loop. -/
def traverse_graphS (fuel : Nat) (nm : List (String × Node))
    (ch : List (String × List String)) : Except String PyState :=
  traverseLoopS fuel ⟨nm, ch, [], ⟨false, false⟩, entryQueue nm⟩

/-- The properties of the node stored under an id, defaulting to empty. -/
def nodePropsAt (nm : List (String × Node)) (i : String) : Props :=
  match dictLookup nm i with
  | some n => propsOf n
  | none => emptyProps

/-- Modelled from the spec: the adjacency list the Graph Builder contract of
section 4.1 assigns to an id — scanning the node list in input order, every
node bearing that id contributes its target edges in order. -/
def adjSpec (nodes : List Node) (i : String) : List String :=
  match nodes with
  | [] => []
  | n :: rest => (if n.id = i then edgesOf n else []) ++ adjSpec rest i

/-- Modelled from the spec: the last node in input order bearing an id
(section 4.1, last write wins). -/
def lastNodeWith (nodes : List Node) (i : String) : Option Node :=
  match nodes with
  | [] => none
  | n :: rest =>
    match lastNodeWith rest i with
    | some m => some m
    | none => if n.id = i then some n else none

/-- The flags obtained by applying the per-node overrides of a path of
property bags, in order, to an initial flag state. -/
def pathFlags (f : Flags) (ps : List Props) : Flags :=
  ps.foldl (fun fl p => overrideFlags p fl) f

/-- Modelled from the spec: the alternative route-resolution formulation of
section 4.2 step 4, which reads the post-override mutable flags directly
instead of re-reading the properties with inherited-flag fallback. -/
def visitOfPostFlags (node : Node) (f : Flags) : Option Visit :=
  let p := propsOf node
  match p.endpoint?, p.method? with
  | some e, some m =>
    let applied : Flags :=
      if e ∈ exemptEndpoints then ⟨false, false⟩ else f
    some ⟨e, strLower m, node.name?.getD "Unnamed Route", applied.auth, applied.admin⟩
  | _, _ => none

/-- OR-accumulation of a list of visit events on top of an optional
existing record; describes a `foldl applyVisit` at one endpoint. -/
def mergeRuns : Option RouteInfo → List Visit → Option RouteInfo
  | r?, [] => r?
  | none, v :: tl => mergeRuns (some (initRecord v)) tl
  | some r, v :: tl => mergeRuns (some (mergeRecord r v)) tl

/-- A graph with a dangling edge: node n1 is an entry and its target n2 is
not a key of the node index. -/
def danglingNodes : List Node :=
  [⟨"n1", none, some (.one "n2"), none, none⟩]

/-- Diamond graph: entry e fans out to a and b, both reaching route node r
(`/data`); a sets `auth_required: true` on its path. -/
def diamondNodes : List Node :=
  [⟨"e", none, some (.many ["a", "b"]), none, none⟩,
   ⟨"a", some "e", some (.one "r"), none, some ⟨none, false, false, some true, none, none, none⟩⟩,
   ⟨"b", some "e", some (.one "r"), none, none⟩,
   ⟨"r", some "a", none, none, some ⟨none, false, false, none, none, some "/data", some "GET"⟩⟩]

/-- A single entry node declaring the exempt route `/login` while also
requesting `auth_required: true` and `admin_required: true`. -/
def loginNodes : List Node :=
  [⟨"l", none, none, some "Login", some ⟨none, false, false, some true, some true, some "/login", some "POST"⟩⟩]

/-- The middle node of the chain example: downgrades auth with
`auth_required: false`. -/
def chainC : Node :=
  ⟨"c", some "e", some (.one "d"), none, some ⟨none, false, false, some false, none, none, none⟩⟩

/-- A chain e → c → d where e sets `auth_required: true` and c downgrades it
with `auth_required: false`; d is the route `/d`. -/
def chainNodes : List Node :=
  [⟨"e", none, some (.one "c"), none, some ⟨none, false, false, some true, none, none, none⟩⟩,
   chainC,
   ⟨"d", some "c", none, none, some ⟨none, false, false, none, none, some "/d", some "GET"⟩⟩]

/-- The dequeue log of the successful run on `chainNodes`. -/
def chainDq : List (String × Flags) :=
  [("e", ⟨false, false⟩), ("c", ⟨true, false⟩), ("d", ⟨false, false⟩)]

/-- The visit log of the successful run on `chainNodes`. -/
def chainVs : List Visit :=
  [⟨"/d", "get", "Unnamed Route", false, false⟩]

/-- The route table of the successful run on `chainNodes`. -/
def chainRoutes : List (String × RouteInfo) :=
  [("/d", ⟨"get", "Unnamed Route", false, false⟩)]

/-- The dequeue log of the successful run on `diamondNodes`. -/
def diamondDq : List (String × Flags) :=
  [("e", ⟨false, false⟩), ("a", ⟨false, false⟩), ("b", ⟨false, false⟩),
   ("r", ⟨true, false⟩), ("r", ⟨false, false⟩)]

/-- The visit log of the successful run on `diamondNodes`. -/
def diamondVs : List Visit :=
  [⟨"/data", "get", "Unnamed Route", true, false⟩,
   ⟨"/data", "get", "Unnamed Route", false, false⟩]

/-- The route table of the successful run on `diamondNodes`. -/
def diamondRoutes : List (String × RouteInfo) :=
  [("/data", ⟨"get", "Unnamed Route", true, false⟩)]

/-- A single entry node whose properties carry `allowed_origins` and a
truthy `log_requests`. -/
def corsNodes : List Node :=
  [⟨"o", none, none, none, some ⟨none, true, true, none, none, none, none⟩⟩]

/-- A single isolated entry node with no properties. -/
def plainNode : Node :=
  ⟨"n1", none, none, none, none⟩

/-- Entry node of the revisit example, setting `auth_required: true` and
targeting r. -/
def revisitE : Node :=
  ⟨"e", none, some (.one "r"), none, some ⟨none, false, false, some true, none, none, none⟩⟩

/-- Route node of the revisit example: it also satisfies the entry predicate
(`type: "entry"`) and declares the route `/r`. -/
def revisitR : Node :=
  ⟨"r", some "e", none, none, some ⟨some "entry", false, false, none, none, some "/r", some "GET"⟩⟩

/-- Entry node e (`auth_required: true`) targeting r, where r also satisfies
the entry predicate (`type: "entry"`) and declares the route `/r`. -/
def revisitNodes : List Node :=
  [revisitE, revisitR]

/-- The dequeue log of the successful run on `revisitNodes`. -/
def revisitDq : List (String × Flags) :=
  [("e", ⟨false, false⟩), ("r", ⟨false, false⟩), ("r", ⟨true, false⟩)]

/-- The visit log of the successful run on `revisitNodes`. -/
def revisitVs : List Visit :=
  [⟨"/r", "get", "Unnamed Route", false, false⟩,
   ⟨"/r", "get", "Unnamed Route", true, false⟩]

/-- The route table of the successful run on `revisitNodes`. -/
def revisitRoutes : List (String × RouteInfo) :=
  [("/r", ⟨"get", "Unnamed Route", true, false⟩)]

/-- Adjacency of the branch-isolation example: entry e fans out to a and b;
a leads to a1, b leads to the route node b1. -/
def isoCh : List (String × List String) :=
  [("e", ["a", "b"]), ("a", ["a1"]), ("b", ["b1"])]

/-- Branch-isolation node index, first variant: a1 (reachable only through
a) sets `admin_required: true`. -/
def isoNmA : List (String × Node) :=
  [("e", ⟨"e", none, some (.many ["a", "b"]), none, none⟩),
   ("a", ⟨"a", some "e", some (.one "a1"), none, none⟩),
   ("b", ⟨"b", some "e", some (.one "b1"), none, none⟩),
   ("a1", ⟨"a1", some "a", none, none, some ⟨none, false, false, none, some true, none, none⟩⟩),
   ("b1", ⟨"b1", some "b", none, none, some ⟨none, false, false, none, none, some "/b1", some "GET"⟩⟩)]

/-- Branch-isolation node index, second variant: identical except that a1
carries no properties at all. -/
def isoNmB : List (String × Node) :=
  [("e", ⟨"e", none, some (.many ["a", "b"]), none, none⟩),
   ("a", ⟨"a", some "e", some (.one "a1"), none, none⟩),
   ("b", ⟨"b", some "e", some (.one "b1"), none, none⟩),
   ("a1", ⟨"a1", some "a", none, none, none⟩),
   ("b1", ⟨"b1", some "b", none, none, some ⟨none, false, false, none, none, some "/b1", some "GET"⟩⟩)]

/-- The ids reachable from b in `isoCh`. -/
def isoReach : List String :=
  ["b", "b1"]

/-- The final state of the state-threading traverser on the one-node graph
of `plainNode`. -/
def pureSt : PyState :=
  ⟨[("n1", plainNode)], [], [], ⟨false, false⟩, []⟩

section DictLemmas

/-- Looking up in a dict after a Python-style insert. -/
theorem dictLookup_dictInsert {α : Type} (d : List (String × α)) (k : String) (v : α)
    (i : String) :
    dictLookup (dictInsert d k v) i = if k = i then some v else dictLookup d i := by
  induction d with
  | nil => rfl
  | cons hd tl ih =>
    obtain ⟨k', v'⟩ := hd
    simp only [dictInsert]
    by_cases hk : k' = k
    · subst hk
      simp only [if_pos rfl, dictLookup]
      by_cases hi : k' = i <;> simp [hi]
    · simp only [if_neg hk, dictLookup, ih]
      by_cases hi : k' = i
      · subst hi
        have hki : ¬k = k' := fun h => hk h.symm
        simp [hki]
      · simp [hi]

/-- Looking up in a children dict after a `defaultdict(list)` append. -/
theorem dictLookup_dictAppendAt (d : List (String × List String)) (k v i : String) :
    dictLookup (dictAppendAt d k v) i =
      if k = i then some ((dictLookup d i).getD [] ++ [v]) else dictLookup d i := by
  induction d with
  | nil =>
    by_cases hi : k = i <;> simp [dictAppendAt, dictLookup, hi]
  | cons hd tl ih =>
    obtain ⟨k', l⟩ := hd
    simp only [dictAppendAt]
    by_cases hk : k' = k
    · subst hk
      simp only [if_pos rfl, dictLookup]
      by_cases hi : k' = i <;> simp [hi]
    · simp only [if_neg hk, dictLookup, ih]
      by_cases hi : k' = i
      · subst hi
        have hki : ¬k = k' := fun h => hk h.symm
        simp [hki]
      · simp [hi]

/-- Lookup via `chGet` after a `defaultdict(list)` append. -/
theorem chGet_dictAppendAt (d : List (String × List String)) (k v i : String) :
    chGet (dictAppendAt d k v) i = if k = i then chGet d i ++ [v] else chGet d i := by
  unfold chGet
  rw [dictLookup_dictAppendAt]
  by_cases hi : k = i <;> simp [hi]

end DictLemmas

section BuildGraph

/-- The node-index component of the builder fold, related to the last node
bearing each id. -/
theorem build_lookup_aux (nodes : List Node) :
    ∀ (acc : List (String × Node) × List (String × List String)) (i : String),
      dictLookup (nodes.foldl buildStep acc).1 i =
        match lastNodeWith nodes i with
        | some n => some n
        | none => dictLookup acc.1 i := by
  induction nodes with
  | nil => intro acc i; rfl
  | cons n rest ih =>
    intro acc i
    show dictLookup (rest.foldl buildStep (buildStep acc n)).1 i = _
    rw [ih]
    simp only [lastNodeWith, buildStep]
    cases lastNodeWith rest i with
    | some m => rfl
    | none =>
      rw [dictLookup_dictInsert]
      by_cases h : n.id = i <;> simp [h]

/-- The children entries contributed by one node's edge fold. -/
theorem chGet_foldl_appendAt (l : List String) :
    ∀ (d : List (String × List String)) (k i : String),
      chGet (l.foldl (fun chd tid => dictAppendAt chd k tid) d) i =
        chGet d i ++ (if k = i then l else []) := by
  induction l with
  | nil => intro d k i; by_cases h : k = i <;> simp [h]
  | cons v vs ih =>
    intro d k i
    show chGet (vs.foldl _ (dictAppendAt d k v)) i = _
    rw [ih, chGet_dictAppendAt]
    by_cases h : k = i <;> simp [h]

/-- The adjacency component of the builder fold, related to the per-node
contributions in input order. -/
theorem build_adj_aux (nodes : List Node) :
    ∀ (acc : List (String × Node) × List (String × List String)) (i : String),
      chGet (nodes.foldl buildStep acc).2 i = chGet acc.2 i ++ adjSpec nodes i := by
  induction nodes with
  | nil => intro acc i; simp [adjSpec]
  | cons n rest ih =>
    intro acc i
    show chGet (rest.foldl buildStep (buildStep acc n)).2 i = _
    rw [ih]
    simp only [buildStep, adjSpec]
    rw [chGet_foldl_appendAt]
    rw [List.append_assoc]

/-- Claim C8: `build_graph` maps each id to the last node in input order
bearing that id, and its adjacency assigns each id exactly the ordered,
non-deduplicated concatenation of the per-node contributions: one entry per
element of a truthy list target, one for a truthy scalar target, none for an
absent or falsy target. -/
theorem build_graph_char (nodes : List Node) (i : String) :
    dictLookup (build_graph nodes).1 i = lastNodeWith nodes i ∧
    chGet (build_graph nodes).2 i = adjSpec nodes i := by
  constructor
  · rw [build_graph, build_lookup_aux]
    cases lastNodeWith nodes i <;> rfl
  · rw [build_graph, build_adj_aux]
    rfl

end BuildGraph

/-- Claim C1: on the graph whose entry node n1 targets the missing id n2,
the traverser faults with a KeyError (the unguarded `node_map[cur_id]`
lookup) instead of treating the dangling child as "no further expansion". -/
theorem dangling_edge_keyerror :
    traverse_graph 10 (build_graph danglingNodes).1 (build_graph danglingNodes).2 =
      .error "KeyError" := by
  rfl

section RouteTable

/-- A route-table lookup after merging one visit. -/
theorem dictLookup_applyVisit (routes : List (String × RouteInfo)) (v : Visit) (e : String) :
    dictLookup (applyVisit routes v) e =
      if v.endpoint = e then
        some (match dictLookup routes e with
              | some r => mergeRecord r v
              | none => initRecord v)
      else dictLookup routes e := by
  unfold applyVisit
  by_cases he : v.endpoint = e
  · subst he
    cases hr : dictLookup routes v.endpoint with
    | some r => rw [dictLookup_dictInsert]; simp [hr]
    | none => rw [dictLookup_dictInsert]; simp [hr]
  · cases hr : dictLookup routes v.endpoint with
    | some r => rw [dictLookup_dictInsert]; simp [he]
    | none => rw [dictLookup_dictInsert]; simp [he]

/-- OR-accumulation on top of an existing record: method and name are kept,
the boolean fields are OR-ed with the visits'. -/
theorem mergeRuns_some (l : List Visit) :
    ∀ r : RouteInfo,
      mergeRuns (some r) l =
        some ⟨r.method, r.name, r.auth || l.any (fun v => v.auth),
              r.admin || l.any (fun v => v.admin)⟩ := by
  induction l with
  | nil =>
    intro r
    obtain ⟨m, n, a, ad⟩ := r
    simp [mergeRuns]
  | cons v tl ih =>
    intro r
    rw [show mergeRuns (some r) (v :: tl) = mergeRuns (some (mergeRecord r v)) tl from rfl]
    rw [ih]
    simp [mergeRecord, Bool.or_assoc]

/-- OR-accumulation from scratch: the first visit fixes method and name, the
boolean fields are the OR over all visits. -/
theorem mergeRuns_none (v : Visit) (tl : List Visit) :
    mergeRuns none (v :: tl) =
      some ⟨v.method, v.name, v.auth || tl.any (fun x => x.auth),
            v.admin || tl.any (fun x => x.admin)⟩ := by
  rw [show mergeRuns none (v :: tl) = mergeRuns (some (initRecord v)) tl from rfl]
  rw [mergeRuns_some]
  rfl

/-- A route-table lookup after folding a list of visits equals the
OR-accumulation of the visits at that endpoint. -/
theorem dictLookup_foldl_applyVisit (vs : List Visit) :
    ∀ (routes : List (String × RouteInfo)) (e : String),
      dictLookup (vs.foldl applyVisit routes) e =
        mergeRuns (dictLookup routes e) (vs.filter (fun v => v.endpoint == e)) := by
  induction vs with
  | nil => intro routes e; simp [mergeRuns]
  | cons v tl ih =>
    intro routes e
    show dictLookup (tl.foldl applyVisit (applyVisit routes v)) e = _
    rw [ih, dictLookup_applyVisit]
    by_cases he : v.endpoint = e
    · have hb : (v.endpoint == e) = true := by simp [he]
      rw [if_pos he]
      simp only [List.filter_cons, hb, if_true]
      cases dictLookup routes e <;> rfl
    · have hb : (v.endpoint == e) = false := by simp [he]
      rw [if_neg he]
      simp [List.filter_cons, hb]

end RouteTable

section StepLemmas

/-- The cors component of a global-flag update. -/
theorem updateGlobals_cors (p : Props) (g : GFlags) :
    (updateGlobals p g).cors = (g.cors || p.hasAllowedOrigins) := by
  unfold updateGlobals
  cases hp : p.hasAllowedOrigins <;> cases hl : p.logRequests <;> simp [hp, hl]

/-- The logging component of a global-flag update. -/
theorem updateGlobals_logging (p : Props) (g : GFlags) :
    (updateGlobals p g).logging = (g.logging || p.logRequests) := by
  unfold updateGlobals
  cases hp : p.hasAllowedOrigins <;> cases hl : p.logRequests <;> simp [hp, hl]

/-- The auth component of the local override: the node's explicit value if
any, otherwise the inherited value. -/
theorem overrideFlags_auth (p : Props) (f : Flags) :
    (overrideFlags p f).auth = p.authRequired?.getD f.auth := by
  unfold overrideFlags
  cases p.authRequired? <;> cases p.adminRequired? <;> rfl

/-- The admin component of the local override. -/
theorem overrideFlags_admin (p : Props) (f : Flags) :
    (overrideFlags p f).admin = p.adminRequired?.getD f.admin := by
  unfold overrideFlags
  cases p.authRequired? <;> cases p.adminRequired? <;> rfl

end StepLemmas

section LoopLemmas

/-- Master invariant of the BFS loop: a successful run extends the ghost
logs by a dequeue log Δq and a visit log Δv such that the final route table
is the visit-fold over the initial one, the global flags are the OR of the
initial ones with the per-node triggers over Δq, every queued pair is
eventually dequeued, and every dequeued pair resolves to a node whose
route-visit lands in Δv and whose children are dequeued with the
parent's post-override flags. -/
theorem traverseLoop_spec (nm : List (String × Node)) (ch : List (String × List String)) :
    ∀ (fuel : Nat) (q : List (String × Flags)) (routes : List (String × RouteInfo))
      (g : GFlags) (dq : List (String × Flags)) (vs : List Visit)
      (r' : List (String × RouteInfo)) (g' : GFlags) (dq' : List (String × Flags))
      (vs' : List Visit),
      traverseLoop nm ch fuel q routes g dq vs = .ok (r', g', dq', vs') →
      ∃ Δq Δv,
        dq' = dq ++ Δq ∧ vs' = vs ++ Δv ∧
        r' = Δv.foldl applyVisit routes ∧
        g'.cors = (g.cors || Δq.any (fun c => (nodePropsAt nm c.1).hasAllowedOrigins)) ∧
        g'.logging = (g.logging || Δq.any (fun c => (nodePropsAt nm c.1).logRequests)) ∧
        (∀ x, x ∈ q → x ∈ Δq) ∧
        (∀ x, x ∈ Δq → ∃ node, dictLookup nm x.1 = some node ∧
          (∀ v, visitOf node (overrideFlags (propsOf node) x.2) = some v → v ∈ Δv) ∧
          (∀ c, c ∈ chGet ch x.1 → (c, overrideFlags (propsOf node) x.2) ∈ Δq)) ∧
        (∀ v, v ∈ Δv → ∃ node fl, visitOf node fl = some v) := by
  intro fuel
  induction fuel with
  | zero =>
    intro q routes g dq vs r' g' dq' vs' h
    exact Except.noConfusion h
  | succ fuel ih =>
    intro q routes g dq vs r' g' dq' vs' h
    match q with
    | [] =>
      simp only [traverseLoop, Except.ok.injEq, Prod.mk.injEq] at h
      obtain ⟨h1, h2, h3, h4⟩ := h
      subst h1; subst h2; subst h3; subst h4
      refine ⟨[], [], by simp, by simp, by simp, by simp, by simp, ?_, ?_, ?_⟩
      · intro x hx; exact absurd hx (List.not_mem_nil x)
      · intro x hx; exact absurd hx (List.not_mem_nil x)
      · intro v hv; exact absurd hv (List.not_mem_nil v)
    | (cur, f) :: rest =>
      simp only [traverseLoop] at h
      cases hl : dictLookup nm cur with
      | none =>
        rw [hl] at h
        exact Except.noConfusion h
      | some node =>
        rw [hl] at h
        simp only at h
        obtain ⟨Δq1, Δv1, h1, h2, h3, h4, h5, h6, h7, h8⟩ :=
          ih _ _ _ _ _ _ _ _ _ h
        refine ⟨(cur, f) :: Δq1,
          (visitOf node (overrideFlags (propsOf node) f)).toList ++ Δv1,
          ?_, ?_, ?_, ?_, ?_, ?_, ?_, ?_⟩
        · rw [h1, List.append_assoc]; rfl
        · rw [h2, List.append_assoc]
        · rw [h3, List.foldl_append]
          cases hv : visitOf node (overrideFlags (propsOf node) f) <;> simp [hv]
        · rw [h4, updateGlobals_cors]
          simp only [List.any_cons, nodePropsAt, hl, Bool.or_assoc]
        · rw [h5, updateGlobals_logging]
          simp only [List.any_cons, nodePropsAt, hl, Bool.or_assoc]
        · intro x hx
          rcases List.mem_cons.mp hx with hx | hx
          · subst hx; exact List.mem_cons_self _ _
          · exact List.mem_cons_of_mem _ (h6 x (List.mem_append_left _ hx))
        · intro x hx
          rcases List.mem_cons.mp hx with hx | hx
          · subst hx
            refine ⟨node, hl, ?_, ?_⟩
            · intro v hv
              apply List.mem_append_left
              rw [hv]
              exact List.mem_cons_self _ _
            · intro c hc
              apply List.mem_cons_of_mem
              apply h6
              apply List.mem_append_right
              exact List.mem_map.mpr ⟨c, hc, rfl⟩
          · obtain ⟨node', hn, hvm, hcm⟩ := h7 x hx
            refine ⟨node', hn, ?_, ?_⟩
            · intro v hv
              exact List.mem_append_right _ (hvm v hv)
            · intro c hc
              exact List.mem_cons_of_mem _ (hcm c hc)
        · intro v hv
          rcases List.mem_append.mp hv with hv | hv
          · cases hV : visitOf node (overrideFlags (propsOf node) f) with
            | none => rw [hV] at hv; exact absurd hv (List.not_mem_nil v)
            | some v' =>
              rw [hV] at hv
              have hvv : v = v' := by simpa using hv
              exact ⟨node, overrideFlags (propsOf node) f, by rw [hV, hvv]⟩
          · exact h8 v hv

end LoopLemmas

section FrameLemmas

/-- Frame property of the BFS loop: its entire output depends on the node
index only at ids belonging to any child-closed set containing the ids of
the queue. -/
theorem traverseLoop_frame (nm1 nm2 : List (String × Node)) (ch : List (String × List String))
    (R : List String)
    (hcl : ∀ p, p ∈ R → ∀ c, c ∈ chGet ch p → c ∈ R)
    (hag : ∀ i, i ∈ R → dictLookup nm1 i = dictLookup nm2 i) :
    ∀ (fuel : Nat) (q : List (String × Flags)) (routes : List (String × RouteInfo))
      (g : GFlags) (dq : List (String × Flags)) (vs : List Visit),
      (∀ x : String × Flags, x ∈ q → x.1 ∈ R) →
      traverseLoop nm1 ch fuel q routes g dq vs = traverseLoop nm2 ch fuel q routes g dq vs := by
  intro fuel
  induction fuel with
  | zero => intro q routes g dq vs hq; rfl
  | succ fuel ih =>
    intro q routes g dq vs hq
    match q with
    | [] => rfl
    | (cur, f) :: rest =>
      have hcur : cur ∈ R := hq (cur, f) (List.mem_cons_self _ _)
      have heq : dictLookup nm1 cur = dictLookup nm2 cur := hag cur hcur
      simp only [traverseLoop, ← heq]
      cases hl : dictLookup nm1 cur with
      | none => rfl
      | some node =>
        simp only
        apply ih
        intro x hx
        rcases List.mem_append.mp hx with hx | hx
        · exact hq x (List.mem_cons_of_mem _ hx)
        · obtain ⟨c, hc, hxc⟩ := List.mem_map.mp hx
          subst hxc
          exact hcl cur hcur c hc

end FrameLemmas

section StateLemmas

/-- The state-threading loop agrees with the functional loop and leaves the
node map and children map of the state untouched. -/
theorem traverseLoopS_eq (fuel : Nat) :
    ∀ (nm : List (String × Node)) (ch : List (String × List String))
      (q : List (String × Flags)) (routes : List (String × RouteInfo)) (g : GFlags)
      (dq : List (String × Flags)) (vs : List Visit),
      traverseLoopS fuel ⟨nm, ch, routes, g, q⟩ =
        match traverseLoop nm ch fuel q routes g dq vs with
        | .ok (r', g', _, _) => .ok ⟨nm, ch, r', g', []⟩
        | .error e => .error e := by
  induction fuel with
  | zero => intros; rfl
  | succ fuel ih =>
    intro nm ch q routes g dq vs
    match q with
    | [] => rfl
    | (cur, f) :: rest =>
      simp only [traverseLoopS, traverseLoop]
      cases hl : dictLookup nm cur with
      | none => rfl
      | some node =>
        simp only
        exact ih nm ch _ _ _ (dq ++ [(cur, f)]) (vs ++ (visitOf node (overrideFlags (propsOf node) f)).toList)

end StateLemmas

section VisitLemmas

/-- A route-visit event at an exempt endpoint always carries false flags. -/
theorem visitOf_exempt (node : Node) (f : Flags) (v : Visit)
    (hv : visitOf node f = some v) (he : v.endpoint ∈ exemptEndpoints) :
    v.auth = false ∧ v.admin = false := by
  simp only [visitOf] at hv
  cases hep : (propsOf node).endpoint? with
  | none => rw [hep] at hv; exact Option.noConfusion hv
  | some e' =>
    cases hmp : (propsOf node).method? with
    | none => rw [hep, hmp] at hv; exact Option.noConfusion hv
    | some m =>
      rw [hep, hmp] at hv
      simp only at hv
      obtain rfl := Option.some.inj hv
      simp only at he
      rw [if_pos he]
      exact ⟨rfl, rfl⟩

/-- A path of properties none of which sets `auth_required` leaves the auth
flag unchanged. -/
theorem pathFlags_auth_of_none (qs : List Props) :
    ∀ f0 : Flags, (∀ q, q ∈ qs → q.authRequired? = none) →
      (pathFlags f0 qs).auth = f0.auth := by
  induction qs with
  | nil => intro f0 h; rfl
  | cons p qs ih =>
    intro f0 h
    show (pathFlags (overrideFlags p f0) qs).auth = f0.auth
    rw [ih _ (fun q hq => h q (List.mem_cons_of_mem _ hq))]
    rw [overrideFlags_auth, h p (List.mem_cons_self _ _)]
    rfl

/-- A path of properties none of which sets `admin_required` leaves the
admin flag unchanged. -/
theorem pathFlags_admin_of_none (qs : List Props) :
    ∀ f0 : Flags, (∀ q, q ∈ qs → q.adminRequired? = none) →
      (pathFlags f0 qs).admin = f0.admin := by
  induction qs with
  | nil => intro f0 h; rfl
  | cons p qs ih =>
    intro f0 h
    show (pathFlags (overrideFlags p f0) qs).admin = f0.admin
    rw [ih _ (fun q hq => h q (List.mem_cons_of_mem _ hq))]
    rw [overrideFlags_admin, h p (List.mem_cons_self _ _)]
    rfl

end VisitLemmas

/-- Claim C2: when an endpoint is reached by two or more route-node visits,
the stored record's auth is the OR of all visits' applied auth values and
likewise for admin, while method and name are those of the first visit and
are never changed by later merges. -/
theorem merge_or_first_writer (fuel : Nat) (nm : List (String × Node))
    (ch : List (String × List String)) (routes : List (String × RouteInfo)) (g : GFlags)
    (dq : List (String × Flags)) (vs : List Visit) (e : String)
    (h : traverse_graphT fuel nm ch = .ok (routes, g, dq, vs))
    (h2 : 2 ≤ (vs.filter (fun v => v.endpoint == e)).length) :
    ∃ v0 tl, vs.filter (fun v => v.endpoint == e) = v0 :: tl ∧
      dictLookup routes e =
        some ⟨v0.method, v0.name, v0.auth || tl.any (fun x => x.auth),
              v0.admin || tl.any (fun x => x.admin)⟩ := by
  unfold traverse_graphT at h
  obtain ⟨Δq, Δv, _, hv, hfold, _, _, _, _, _⟩ :=
    traverseLoop_spec nm ch fuel _ _ _ _ _ _ _ _ _ h
  rw [List.nil_append] at hv
  subst hv
  cases hf : vs.filter (fun v => v.endpoint == e) with
  | nil => rw [hf] at h2; simp at h2
  | cons v0 tl =>
    refine ⟨v0, tl, rfl, ?_⟩
    rw [hfold, dictLookup_foldl_applyVisit, hf]
    exact mergeRuns_none v0 tl

/-- Witness for C2: in the diamond graph, the endpoint /data is visited
twice, its record ORs the two applied auth values (true), and keeps the
first visit's method and name. -/
theorem merge_or_first_writer_w :
    2 ≤ (diamondVs.filter (fun v => v.endpoint == "/data")).length ∧
    ∃ v0 tl, diamondVs.filter (fun v => v.endpoint == "/data") = v0 :: tl ∧
      dictLookup diamondRoutes "/data" =
        some ⟨v0.method, v0.name, v0.auth || tl.any (fun x => x.auth),
              v0.admin || tl.any (fun x => x.admin)⟩ :=
  ⟨by decide,
   merge_or_first_writer 10 (build_graph diamondNodes).1 (build_graph diamondNodes).2
     diamondRoutes ⟨false, false⟩ diamondDq diamondVs "/data" (by rfl) (by decide)⟩

/-- Claim C3: every stored route whose endpoint is /login, /signup or
/signout has auth = false and admin = false, regardless of inherited flags
and of the node's own auth_required / admin_required properties. -/
theorem exempt_routes_public (fuel : Nat) (nm : List (String × Node))
    (ch : List (String × List String)) (routes : List (String × RouteInfo)) (g : GFlags)
    (e : String) (r : RouteInfo)
    (h : traverse_graph fuel nm ch = .ok (routes, g))
    (hr : dictLookup routes e = some r)
    (he : e ∈ exemptEndpoints) :
    r.auth = false ∧ r.admin = false := by
  unfold traverse_graph at h
  cases ht : traverse_graphT fuel nm ch with
  | error s => rw [ht] at h; exact Except.noConfusion h
  | ok x =>
    obtain ⟨r1, g1, dq1, vs1⟩ := x
    rw [ht] at h
    simp only [Except.map, Except.ok.injEq, Prod.mk.injEq] at h
    obtain ⟨hh1, hh2⟩ := h
    subst hh1
    unfold traverse_graphT at ht
    obtain ⟨Δq, Δv, _, hv, hfold, _, _, _, _, h8⟩ :=
      traverseLoop_spec nm ch fuel _ _ _ _ _ _ _ _ _ ht
    rw [List.nil_append] at hv
    subst hv
    rw [hfold, dictLookup_foldl_applyVisit] at hr
    cases hf : vs1.filter (fun v => v.endpoint == e) with
    | nil => rw [hf] at hr; exact Option.noConfusion hr
    | cons v0 tl =>
      have hnone : dictLookup ([] : List (String × RouteInfo)) e = none := rfl
      rw [hnone, hf, mergeRuns_none] at hr
      obtain rfl := Option.some.inj hr
      have hall : ∀ x, x ∈ v0 :: tl → x.auth = false ∧ x.admin = false := by
        intro x hx
        have hxf : x ∈ vs1.filter (fun v => v.endpoint == e) := by rw [hf]; exact hx
        have hxm := List.mem_filter.mp hxf
        have hxe : x.endpoint = e := by simpa using hxm.2
        obtain ⟨node, fl, hvo⟩ := h8 x hxm.1
        exact visitOf_exempt node fl x hvo (by rw [hxe]; exact he)
      have h0 := hall v0 (List.mem_cons_self _ _)
      have hauth : tl.any (fun x => x.auth) = false := by
        rw [List.any_eq_false]
        intro x hx
        simp [(hall x (List.mem_cons_of_mem _ hx)).1]
      have hadmin : tl.any (fun x => x.admin) = false := by
        rw [List.any_eq_false]
        intro x hx
        simp [(hall x (List.mem_cons_of_mem _ hx)).2]
      constructor
      · show (v0.auth || tl.any (fun x => x.auth)) = false
        rw [h0.1, hauth]
        rfl
      · show (v0.admin || tl.any (fun x => x.admin)) = false
        rw [h0.2, hadmin]
        rfl

/-- Claim C4: a node's explicit auth_required / admin_required value
overwrites (does not OR) the inherited path flag — so an explicit false
downgrades an inherited true — every child is enqueued with exactly the
parent's post-override flags, and an overridden value persists along a path
as long as no closer override re-sets it. -/
theorem override_downgrades_and_propagates (fuel : Nat) (nm : List (String × Node))
    (ch : List (String × List String)) (routes : List (String × RouteInfo)) (g : GFlags)
    (dq : List (String × Flags)) (vs : List Visit)
    (h : traverse_graphT fuel nm ch = .ok (routes, g, dq, vs)) :
    (∀ (p : Props) (f : Flags) (v : Bool), p.authRequired? = some v →
      (overrideFlags p f).auth = v) ∧
    (∀ (p : Props) (f : Flags) (v : Bool), p.adminRequired? = some v →
      (overrideFlags p f).admin = v) ∧
    (∀ (id : String) (f : Flags) (node : Node), (id, f) ∈ dq →
      dictLookup nm id = some node →
      ∀ c, c ∈ chGet ch id → (c, overrideFlags (propsOf node) f) ∈ dq) ∧
    (∀ (f0 : Flags) (qs : List Props), (∀ q, q ∈ qs → q.authRequired? = none) →
      (pathFlags f0 qs).auth = f0.auth) ∧
    (∀ (f0 : Flags) (qs : List Props), (∀ q, q ∈ qs → q.adminRequired? = none) →
      (pathFlags f0 qs).admin = f0.admin) := by
  unfold traverse_graphT at h
  obtain ⟨Δq, Δv, hdq, _, _, _, _, _, h7, _⟩ :=
    traverseLoop_spec nm ch fuel _ _ _ _ _ _ _ _ _ h
  rw [List.nil_append] at hdq
  subst hdq
  refine ⟨?_, ?_, ?_, ?_, ?_⟩
  · intro p f v hv
    rw [overrideFlags_auth, hv]
    rfl
  · intro p f v hv
    rw [overrideFlags_admin, hv]
    rfl
  · intro id f node hmem hlook c hc
    obtain ⟨node', hn, _, hch⟩ := h7 (id, f) hmem
    have hnn : node' = node := by rw [hn] at hlook; exact Option.some.inj hlook
    rw [← hnn]
    exact hch c hc
  · exact fun f0 qs hq => pathFlags_auth_of_none qs f0 hq
  · exact fun f0 qs hq => pathFlags_admin_of_none qs f0 hq

/-- Witness for C4: in the chain run, c's explicit `auth_required: false`
downgrades the inherited true, d is dequeued with c's post-override flags,
and an override survives a path of nodes without further overrides. -/
theorem override_downgrades_and_propagates_w :
    (overrideFlags ⟨none, false, false, some false, none, none, none⟩ ⟨true, true⟩).auth = false ∧
    (overrideFlags ⟨none, false, false, none, some true, none, none⟩ ⟨false, false⟩).admin = true ∧
    ("d", overrideFlags (propsOf chainC) ⟨true, false⟩) ∈ chainDq ∧
    (pathFlags ⟨true, false⟩ [emptyProps, emptyProps]).auth = true := by
  have h := override_downgrades_and_propagates 10
    (build_graph chainNodes).1 (build_graph chainNodes).2
    chainRoutes ⟨false, false⟩ chainDq chainVs (by rfl)
  exact ⟨h.1 _ _ false rfl, h.2.1 _ _ true rfl,
    h.2.2.1 "c" ⟨true, false⟩ chainC (by decide) (by rfl) "d" (by decide),
    h.2.2.2.1 ⟨true, false⟩ [emptyProps, emptyProps] (by decide)⟩

/-- Claim C5: sibling branches are isolated — the complete outcome of
traversing from node b (its flags, dequeue and visit logs, and its
contribution to the route table and global flags) is unchanged when the node
index is modified only at ids outside a child-closed set containing b, such
as nodes reachable only through a sibling branch. -/
theorem branch_isolation (nm1 nm2 : List (String × Node)) (ch : List (String × List String))
    (R : List String) (b : String) (f : Flags) (fuel : Nat)
    (hb : b ∈ R)
    (hcl : ∀ p, p ∈ R → ∀ c, c ∈ chGet ch p → c ∈ R)
    (hag : ∀ i, i ∈ R → dictLookup nm1 i = dictLookup nm2 i) :
    traverseLoop nm1 ch fuel [(b, f)] [] ⟨false, false⟩ [] [] =
      traverseLoop nm2 ch fuel [(b, f)] [] ⟨false, false⟩ [] [] := by
  apply traverseLoop_frame nm1 nm2 ch R hcl hag
  intro x hx
  have hxb : x = (b, f) := List.mem_singleton.mp hx
  rw [hxb]
  exact hb

/-- Witness for C5: with a1 reachable only through a, flipping a1's
`admin_required` property leaves the traversal from b fully unchanged. -/
theorem branch_isolation_w :
    "b" ∈ isoReach ∧
    (∀ p, p ∈ isoReach → ∀ c, c ∈ chGet isoCh p → c ∈ isoReach) ∧
    (∀ i, i ∈ isoReach → dictLookup isoNmA i = dictLookup isoNmB i) ∧
    traverseLoop isoNmA isoCh 10 [("b", ⟨false, false⟩)] [] ⟨false, false⟩ [] [] =
      traverseLoop isoNmB isoCh 10 [("b", ⟨false, false⟩)] [] ⟨false, false⟩ [] [] :=
  ⟨by decide, by decide, by decide,
   branch_isolation isoNmA isoNmB isoCh isoReach "b" ⟨false, false⟩ 10
     (by decide) (by decide) (by decide)⟩

/-- Claim C6: cors and logging start false, each global-flag update ORs in
the node's trigger (presence of allowed_origins for cors, truthy
log_requests for logging) so a true flag is never reset, and in a completed
run each final global flag equals whether some dequeued node triggered it. -/
theorem global_flags_monotone :
    (∀ (p : Props) (g : GFlags), (updateGlobals p g).cors = (g.cors || p.hasAllowedOrigins)) ∧
    (∀ (p : Props) (g : GFlags), (updateGlobals p g).logging = (g.logging || p.logRequests)) ∧
    (∀ (fuel : Nat) (nm : List (String × Node)) (ch : List (String × List String))
       (routes : List (String × RouteInfo)) (g : GFlags) (dq : List (String × Flags))
       (vs : List Visit),
      traverse_graphT fuel nm ch = .ok (routes, g, dq, vs) →
      g.cors = dq.any (fun c => (nodePropsAt nm c.1).hasAllowedOrigins) ∧
      g.logging = dq.any (fun c => (nodePropsAt nm c.1).logRequests)) := by
  refine ⟨updateGlobals_cors, updateGlobals_logging, ?_⟩
  intro fuel nm ch routes g dq vs h
  unfold traverse_graphT at h
  obtain ⟨Δq, Δv, hdq, _, _, hc, hl, _, _, _⟩ :=
    traverseLoop_spec nm ch fuel _ _ _ _ _ _ _ _ _ h
  rw [List.nil_append] at hdq
  subst hdq
  constructor
  · rw [hc]; simp
  · rw [hl]; simp

/-- Witness for C6: concrete global-flag updates, and the completed run on
the allowed_origins / log_requests node whose final global flags are both
true exactly because that node was dequeued. -/
theorem global_flags_monotone_w :
    (updateGlobals ⟨none, true, false, none, none, none, none⟩ ⟨false, false⟩).cors = (false || true) ∧
    (updateGlobals ⟨none, false, true, none, none, none, none⟩ ⟨false, true⟩).logging = (true || true) ∧
    ((⟨true, true⟩ : GFlags).cors =
       ([("o", (⟨false, false⟩ : Flags))].any
         (fun c => (nodePropsAt (build_graph corsNodes).1 c.1).hasAllowedOrigins)) ∧
     (⟨true, true⟩ : GFlags).logging =
       ([("o", (⟨false, false⟩ : Flags))].any
         (fun c => (nodePropsAt (build_graph corsNodes).1 c.1).logRequests))) :=
  ⟨global_flags_monotone.1 _ _, global_flags_monotone.2.1 _ _,
   global_flags_monotone.2.2 10 (build_graph corsNodes).1 (build_graph corsNodes).2
     [] ⟨true, true⟩ [("o", ⟨false, false⟩)] [] (by rfl)⟩

/-- Claim C7: for a route node, reading the properties with inherited-flag
fallback after the local override has run yields exactly the post-override
flags, so the two formulations of route resolution produce the same route
record. -/
theorem applied_equals_post_override :
    (∀ (p : Props) (f : Flags), appliedFlags p (overrideFlags p f) = overrideFlags p f) ∧
    (∀ (node : Node) (f : Flags),
      visitOf node (overrideFlags (propsOf node) f) =
        visitOfPostFlags node (overrideFlags (propsOf node) f)) := by
  have h1 : ∀ (p : Props) (f : Flags), appliedFlags p (overrideFlags p f) = overrideFlags p f := by
    intro p f
    cases ha : p.authRequired? <;> cases hd : p.adminRequired? <;>
      simp [appliedFlags, overrideFlags, ha, hd]
  refine ⟨h1, ?_⟩
  intro node f
  simp only [visitOf, visitOfPostFlags, h1]

/-- Witness for C3: the /login route declared with auth_required and
admin_required both true is still stored with both flags false. -/
theorem exempt_routes_public_w :
    dictLookup [("/login", (⟨"post", "Login", false, false⟩ : RouteInfo))] "/login" =
      some ⟨"post", "Login", false, false⟩ ∧
    "/login" ∈ exemptEndpoints ∧
    (⟨"post", "Login", false, false⟩ : RouteInfo).auth = false ∧
    (⟨"post", "Login", false, false⟩ : RouteInfo).admin = false :=
  ⟨by decide, by decide,
   (exempt_routes_public 10 (build_graph loginNodes).1 (build_graph loginNodes).2
     [("/login", ⟨"post", "Login", false, false⟩)] ⟨false, false⟩ "/login"
     ⟨"post", "Login", false, false⟩ (by rfl) (by decide) (by decide)).1,
   (exempt_routes_public 10 (build_graph loginNodes).1 (build_graph loginNodes).2
     [("/login", ⟨"post", "Login", false, false⟩)] ⟨false, false⟩ "/login"
     ⟨"post", "Login", false, false⟩ (by rfl) (by decide) (by decide)).2⟩

/-- Claim C9: the traverser is pure with respect to its inputs — a
completed run of the state-threading loop leaves the node index, the
children map and hence every node record exactly as given (draining the
queue), its outputs agree with the functional traverser, and re-running on
the returned node index and children yields identical route table and
global flags. -/
theorem traverser_pure (fuel : Nat) (nm : List (String × Node))
    (ch : List (String × List String)) (st' : PyState)
    (h : traverse_graphS fuel nm ch = .ok st') :
    st'.node_map = nm ∧ st'.children = ch ∧ st'.queue = [] ∧
    traverse_graph fuel nm ch = .ok (st'.routes, st'.global_flags) ∧
    traverse_graph fuel st'.node_map st'.children = traverse_graph fuel nm ch := by
  unfold traverse_graphS at h
  rw [traverseLoopS_eq fuel nm ch (entryQueue nm) [] ⟨false, false⟩ [] []] at h
  cases ht : traverseLoop nm ch fuel (entryQueue nm) [] ⟨false, false⟩ [] [] with
  | error s =>
    rw [ht] at h
    exact Except.noConfusion h
  | ok x =>
    obtain ⟨r1, g1, dq1, vs1⟩ := x
    rw [ht] at h
    simp only [Except.ok.injEq] at h
    subst h
    refine ⟨rfl, rfl, rfl, ?_, rfl⟩
    unfold traverse_graph traverse_graphT
    rw [ht]
    rfl

/-- Witness for C9: on the one-node graph the state-threading run returns
the input node index and children unchanged with an empty queue, agreeing
with the functional traverser. -/
theorem traverser_pure_w :
    traverse_graphS 10 [("n1", plainNode)] [] = .ok pureSt ∧
    (pureSt.node_map = [("n1", plainNode)] ∧ pureSt.children = [] ∧ pureSt.queue = [] ∧
     traverse_graph 10 [("n1", plainNode)] [] = .ok (pureSt.routes, pureSt.global_flags) ∧
     traverse_graph 10 pureSt.node_map pureSt.children =
       traverse_graph 10 [("n1", plainNode)] []) :=
  ⟨by rfl, traverser_pure 10 [("n1", plainNode)] [] pureSt (by rfl)⟩

/-- Claim C10: every node satisfying the entry predicate is dequeued seeded
with fresh false flags; every child of a dequeued node is additionally
dequeued with its parent's propagated flags, once per incoming path; and a
visited endpoint's stored record is the OR-merge over all of its visits —
so an entry route node with an authenticated incoming path ends with
auth = true. -/
theorem entry_node_merged_visits (fuel : Nat) (nm : List (String × Node))
    (ch : List (String × List String)) (routes : List (String × RouteInfo)) (g : GFlags)
    (dq : List (String × Flags)) (vs : List Visit)
    (h : traverse_graphT fuel nm ch = .ok (routes, g, dq, vs)) :
    (∀ node, node ∈ dictValues nm → isEntry node = true →
      (node.id, (⟨false, false⟩ : Flags)) ∈ dq) ∧
    (∀ (id : String) (f : Flags) (node : Node), (id, f) ∈ dq →
      dictLookup nm id = some node →
      ∀ c, c ∈ chGet ch id → (c, overrideFlags (propsOf node) f) ∈ dq) ∧
    (∀ e, vs.filter (fun v => v.endpoint == e) ≠ [] →
      ∃ rec, dictLookup routes e = some rec ∧
        rec.auth = (vs.filter (fun v => v.endpoint == e)).any (fun x => x.auth) ∧
        rec.admin = (vs.filter (fun v => v.endpoint == e)).any (fun x => x.admin)) := by
  unfold traverse_graphT at h
  obtain ⟨Δq, Δv, hdq, hvs, hfold, _, _, h6, h7, _⟩ :=
    traverseLoop_spec nm ch fuel _ _ _ _ _ _ _ _ _ h
  rw [List.nil_append] at hdq
  rw [List.nil_append] at hvs
  subst hdq
  subst hvs
  refine ⟨?_, ?_, ?_⟩
  · intro node hmem hent
    apply h6
    unfold entryQueue
    exact List.mem_map.mpr ⟨node, List.mem_filter.mpr ⟨hmem, hent⟩, rfl⟩
  · intro id f node hmem hlook c hc
    obtain ⟨node', hn, _, hch⟩ := h7 (id, f) hmem
    have hnn : node' = node := by rw [hn] at hlook; exact Option.some.inj hlook
    rw [← hnn]
    exact hch c hc
  · intro e hne
    cases hf : vs.filter (fun v => v.endpoint == e) with
    | nil => exact absurd hf hne
    | cons v0 tl =>
      refine ⟨⟨v0.method, v0.name, v0.auth || tl.any (fun x => x.auth),
        v0.admin || tl.any (fun x => x.admin)⟩, ?_, ?_, ?_⟩
      · rw [hfold, dictLookup_foldl_applyVisit, hf]
        exact mergeRuns_none v0 tl
      · simp [List.any_cons]
      · simp [List.any_cons]

/-- Witness for C10: node r is both an entry (type "entry") and the target
of the authenticated entry e; it is dequeued once with fresh false flags and
once with e's propagated flags, and its /r record OR-merges to auth =
true. -/
theorem entry_node_merged_visits_w :
    ("r", (⟨false, false⟩ : Flags)) ∈ revisitDq ∧
    ("r", overrideFlags (propsOf revisitE) ⟨false, false⟩) ∈ revisitDq ∧
    (∃ rec, dictLookup revisitRoutes "/r" = some rec ∧
      rec.auth = (revisitVs.filter (fun v => v.endpoint == "/r")).any (fun x => x.auth) ∧
      rec.admin = (revisitVs.filter (fun v => v.endpoint == "/r")).any (fun x => x.admin)) := by
  have h := entry_node_merged_visits 10
    (build_graph revisitNodes).1 (build_graph revisitNodes).2
    revisitRoutes ⟨false, false⟩ revisitDq revisitVs (by rfl)
  exact ⟨h.1 revisitR (by decide) (by decide),
    h.2.1 "e" ⟨false, false⟩ revisitE (by decide) (by rfl) "r" (by decide),
    h.2.2 "/r" (by decide)⟩

end JSB
